import Mathlib

/-!
Shallow embedding of `boto3_utils/dynamo.py`: a retry decorator implementing
capped exponential back-off with full jitter (`back_off_and_jitter`), paginated
`scan`/`query` readers (`scan_with_back_off_and_jitter`,
`query_with_back_off_and_jitter`), and a batch writer
(`BatchWriterWithBackOffAndJitter`) that drains its buffer in retry-wrapped
chunks.
-/

namespace Boto3Utils

variable {α : Type} {κ : Type} {ρ : Type} {ι : Type}

/-- The error information carried by a botocore `ClientError` response:
the optional `Code` field of the optional `Error` entry. -/
structure ErrorEntry where
  code : Option String
deriving DecidableEq

/-- A botocore `ClientError`: its `response` dict may lack the `Error` entry,
and the `Error` entry may lack the `Code` key. -/
structure ClientError where
  errorEntry : Option ErrorEntry
deriving DecidableEq

/-- The sole retryable error code checked by the decorator. -/
def provisionedThroughputExceeded : String := "ProvisionedThroughputExceededException"

/-- Evaluation of `error.response.get('Error', {}).get('Code')`: `none` when
either the `Error` entry or its `Code` key is missing. -/
def ClientError.classifiedCode (e : ClientError) : Option String :=
  match e.errorEntry with
  | none => none
  | some entry => entry.code

/-- Model of `random.randint(lo, hi)`: `r` is the draw the oracle supplies for
this call; reducing it modulo the interval size keeps the result inside
`[lo, hi]` for every oracle while letting every value of the interval be
realised by a suitable oracle. -/
def randint (r lo hi : Nat) : Nat := lo + r % (hi - lo + 1)

/-- `back_off = 1` at the start of the decorator body. -/
def initialBackOff : Nat := 1

/-- `cap = 60` in the decorator body. -/
def cap : Nat := 60

/-- `base = 1` in the decorator body. -/
def base : Nat := 1

/-- `nr_of_retries = 10` in the decorator body. -/
def nrOfRetries : Nat := 10

deriving instance DecidableEq for Except

/-- Result of running a decorated operation: the outcome, the number of
invocations of the wrapped function, and the slept back-off durations in order. -/
structure RetryResult (α : Type) where
  result : Except ClientError α
  calls : Nat
  sleeps : List Nat
deriving DecidableEq

/-- The `while True` loop of `_back_off_and_jitter`. The wrapped operation is
modelled by the outcome `op n` of its `n`-th invocation; `oracle n` supplies the
random draw consumed by the `randint` call made at attempt `n`. The loop makes
at most `nrRetries + 2` invocations, so the structural `fuel` argument,
instantiated with `nrRetries + 2` at entry, is never exhausted; the fuel-0
branch is unreachable from the entry points. -/
def retryGo (nrRetries : Nat) (op : Nat → Except ClientError α) (oracle : Nat → Nat) :
    Nat → Nat → Nat → RetryResult α
  | 0, _, attempt => ⟨Except.error ⟨none⟩, attempt, []⟩
  | fuel + 1, backOff, attempt =>
    match op attempt with
    | Except.ok a => ⟨Except.ok a, attempt + 1, []⟩
    | Except.error e =>
      if e.classifiedCode = some provisionedThroughputExceeded then
        if attempt > nrRetries then ⟨Except.error e, attempt + 1, []⟩
        else
          let r := retryGo nrRetries op oracle fuel
            (randint (oracle attempt) 0 (min cap (base * 2 ^ attempt))) (attempt + 1)
          ⟨r.result, r.calls, backOff :: r.sleeps⟩
      else ⟨Except.error e, attempt + 1, []⟩

/-- The decorator with the retry budget generalised: the source fixes
`nr_of_retries = 10`, while spec section 3 presents `max_attempts` as
configuration with default 10. -/
def back_off_and_jitter_with (k : Nat) (op : Nat → Except ClientError α)
    (oracle : Nat → Nat) : RetryResult α :=
  retryGo k op oracle (k + 2) initialBackOff 0

/-- `back_off_and_jitter` exactly as in the source: initial back-off 1, cap 60,
base 1, `nr_of_retries = 10`. -/
def back_off_and_jitter (op : Nat → Except ClientError α) (oracle : Nat → Nat) :
    RetryResult α :=
  back_off_and_jitter_with nrOfRetries op oracle

/-- A throughput-exceeded `ClientError`. -/
def throughputError : ClientError := ⟨some ⟨some provisionedThroughputExceeded⟩⟩

/-- An operation failing with a throughput-exceeded error on every invocation. -/
def alwaysThroughput : Nat → Except ClientError Unit :=
  fun _ => Except.error throughputError

/-- One page of a scan/query response: `Items` plus the optional
`LastEvaluatedKey` continuation token. -/
structure Page (α κ : Type) where
  items : List α
  lastEvaluatedKey : Option κ
deriving DecidableEq

/-- The keyword arguments of a scan/query call: every parameter other than
`ExclusiveStartKey` and `Limit` is opaque (`rest`); the pagination loop reads
`Limit` once and rewrites only `ExclusiveStartKey`. -/
structure Params (ρ κ : Type) where
  rest : ρ
  limit : Option Int
  exclusiveStartKey : Option κ
deriving DecidableEq

/-- The `for item in response['Items']` body of `scan_with_back_off_and_jitter`:
each item is yielded; when `limit > 0` the item counter is incremented and
`if limit and item_counter >= limit` raises `StopIteration`, which ends the
generator (the repository predates PEP 479 semantics). Returns the yielded
items, the updated counter, and whether the generator stopped. -/
def scanPageItems (limit : Int) : Int → List α → List α × Int × Bool
  | counter, [] => ([], counter, false)
  | counter, x :: xs =>
    if limit > 0 then
      if limit ≠ 0 ∧ counter + 1 ≥ limit then ([x], counter + 1, true)
      else
        let r := scanPageItems limit (counter + 1) xs
        (x :: r.1, r.2.1, r.2.2)
    else
      let r := scanPageItems limit counter xs
      (x :: r.1, r.2.1, r.2.2)

/-- The `for` body of `query_with_back_off_and_jitter`: the counter is
incremented for every item and `if limit and item_counter >= limit` is checked
without the `if limit > 0` guard present in the scan version. -/
def queryPageItems (limit : Int) : Int → List α → List α × Int × Bool
  | counter, [] => ([], counter, false)
  | counter, x :: xs =>
    if limit ≠ 0 ∧ counter + 1 ≥ limit then ([x], counter + 1, true)
    else
      let r := queryPageItems limit (counter + 1) xs
      (x :: r.1, r.2.1, r.2.2)

/-- The `while True` pagination loop of `scan_with_back_off_and_jitter`, driven
by the successive pages the store returns (each fetch is the retry-wrapped
`table.scan`, which on success delivers one page). Returns the requests issued,
in order, and the items yielded. The loop ends on `StopIteration` or on a
missing `LastEvaluatedKey`; otherwise `kwargs.update(ExclusiveStartKey=...)`
and the next page is fetched. -/
def scanGo : List (Page α κ) → Params ρ κ → Int → Int → List (Params ρ κ) × List α
  | [], _, _, _ => ([], [])
  | p :: ps, kw, limit, counter =>
    let r := scanPageItems limit counter p.items
    if r.2.2 then ([kw], r.1)
    else
      match p.lastEvaluatedKey with
      | none => ([kw], r.1)
      | some k =>
        let t := scanGo ps { kw with exclusiveStartKey := some k } limit r.2.1
        (kw :: t.1, r.1 ++ t.2)

/-- `scan_with_back_off_and_jitter`: reads `limit = kwargs.get('Limit', -1)` and
runs the pagination loop with the item counter at 0. -/
def scan_with_back_off_and_jitter (pages : List (Page α κ)) (kw : Params ρ κ) :
    List (Params ρ κ) × List α :=
  scanGo pages kw (kw.limit.getD (-1)) 0

/-- The `while True` pagination loop of `query_with_back_off_and_jitter`;
identical to the scan loop except for the per-item body. -/
def queryGo : List (Page α κ) → Params ρ κ → Int → Int → List (Params ρ κ) × List α
  | [], _, _, _ => ([], [])
  | p :: ps, kw, limit, counter =>
    let r := queryPageItems limit counter p.items
    if r.2.2 then ([kw], r.1)
    else
      match p.lastEvaluatedKey with
      | none => ([kw], r.1)
      | some k =>
        let t := queryGo ps { kw with exclusiveStartKey := some k } limit r.2.1
        (kw :: t.1, r.1 ++ t.2)

/-- `query_with_back_off_and_jitter`: reads `limit = kwargs.get('Limit', -1)`
and runs the pagination loop with the item counter at 0. -/
def query_with_back_off_and_jitter (pages : List (Page α κ)) (kw : Params ρ κ) :
    List (Params ρ κ) × List α :=
  queryGo pages kw (kw.limit.getD (-1)) 0

/-- A well-formed store page sequence: every page but the last carries a
continuation token and the last one does not. -/
def chainOk : List (Page α κ) → Bool
  | [] => false
  | [p] => p.lastEvaluatedKey.isNone
  | p :: q :: ps => p.lastEvaluatedKey.isSome && chainOk (q :: ps)

/-- Outcome of one `batch_write_item` call of the store. -/
inductive BatchResp where
  | ok : BatchResp
  | err : ClientError → BatchResp
deriving DecidableEq

/-- The writer's state: the pending item buffer, the number of batch-write calls
made so far, and a log of the chunks offered to the store (a chunk is logged
also when its call fails, since the request was issued). -/
structure WriterState (ι : Type) where
  buffer : List ι
  storeCalls : Nat
  sent : List (List ι)
deriving DecidableEq

/-- Modelled from the spec: boto3's `BatchWriter._flush` base-class method is
not in `src/` (only the subclass is). Per spec sections 4.3 and 6 it offers the
first `flush_amount` buffered items to the store as one batch-write call; the
chunk is removed from the buffer only on the store's acknowledgment, and a
classified failure raises with the buffer unchanged. Partial consumption
(unprocessed items) is not modelled: the store either acknowledges the offered
chunk in full or fails. `store n` is the outcome of the `n`-th batch-write
call. -/
def baseFlush (fa : Nat) (store : Nat → BatchResp) (s : WriterState ι) :
    WriterState ι × Option ClientError :=
  match store s.storeCalls with
  | BatchResp.ok =>
    (⟨s.buffer.drop fa, s.storeCalls + 1, s.sent ++ [s.buffer.take fa]⟩, none)
  | BatchResp.err e =>
    (⟨s.buffer, s.storeCalls + 1, s.sent ++ [s.buffer.take fa]⟩, some e)

/-- The body of `_flush_with_back_off_and_jitter` before decoration:
`while self._items_buffer: super()._flush()`, stopping at the first failure.
With a positive `flush_amount` every acknowledged call strictly shrinks the
buffer, so `buffer.length + 1` rounds of fuel are never exhausted from
`drainBody`; the fuel-0 branch is unreachable. -/
def drainGo (fa : Nat) (store : Nat → BatchResp) :
    Nat → WriterState ι → WriterState ι × Option ClientError
  | 0, s => (s, none)
  | fuel + 1, s =>
    if s.buffer.isEmpty then (s, none)
    else
      match baseFlush fa store s with
      | (s1, none) => drainGo fa store fuel s1
      | (s1, some e) => (s1, some e)

/-- One undecorated invocation of the `_flush_with_back_off_and_jitter` body. -/
def drainBody (fa : Nat) (store : Nat → BatchResp) (s : WriterState ι) :
    WriterState ι × Option ClientError :=
  drainGo fa store (s.buffer.length + 1) s

/-- The decorator applied to the drain body: the same retry loop as
`back_off_and_jitter`, threading the writer state that the Python closure
mutates in place. At most `nrOfRetries + 2` attempts occur, so fuel
`nrOfRetries + 2` is never exhausted from `retryDrain`. -/
def retryDrainGo (fa : Nat) (store : Nat → BatchResp) (oracle : Nat → Nat) :
    Nat → Nat → Nat → WriterState ι → WriterState ι × Option ClientError
  | 0, _, _, s => (s, none)
  | fuel + 1, backOff, attempt, s =>
    match drainBody fa store s with
    | (s1, none) => (s1, none)
    | (s1, some e) =>
      if e.classifiedCode = some provisionedThroughputExceeded then
        if attempt > nrOfRetries then (s1, some e)
        else
          let _ := backOff
          retryDrainGo fa store oracle fuel
            (randint (oracle attempt) 0 (min cap (base * 2 ^ attempt))) (attempt + 1) s1
      else (s1, some e)

/-- `_flush_with_back_off_and_jitter`: the retry-wrapped drain. -/
def retryDrain (fa : Nat) (store : Nat → BatchResp) (oracle : Nat → Nat)
    (s : WriterState ι) : WriterState ι × Option ClientError :=
  retryDrainGo fa store oracle (nrOfRetries + 2) initialBackOff 0 s

/-- The `for _ in range(repetitions)` arm of `_flush`: `n` retry-wrapped drain
calls, a failure propagating out of the loop. -/
def flushChunks (fa : Nat) (store : Nat → BatchResp) (oracle : Nat → Nat) :
    Nat → WriterState ι → WriterState ι × Option ClientError
  | 0, s => (s, none)
  | n + 1, s =>
    match retryDrain fa store oracle s with
    | (s1, none) => flushChunks fa store oracle n s1
    | (s1, some e) => (s1, some e)

/-- The `while self._items_buffer` arm of `_flush`. A successful retry-wrapped
drain leaves the buffer empty and the loop re-checks and exits, so
`buffer.length + 1` rounds of fuel are never exhausted from `flushRemainder`. -/
def flushRemainderGo (fa : Nat) (store : Nat → BatchResp) (oracle : Nat → Nat) :
    Nat → WriterState ι → WriterState ι × Option ClientError
  | 0, s => (s, none)
  | fuel + 1, s =>
    if s.buffer.isEmpty then (s, none)
    else
      match retryDrain fa store oracle s with
      | (s1, none) => flushRemainderGo fa store oracle fuel s1
      | (s1, some e) => (s1, some e)

/-- The remainder arm of `_flush` at its entry point. -/
def flushRemainder (fa : Nat) (store : Nat → BatchResp) (oracle : Nat → Nat)
    (s : WriterState ι) : WriterState ι × Option ClientError :=
  flushRemainderGo fa store oracle (s.buffer.length + 1) s

/-- `BatchWriterWithBackOffAndJitter._flush`: when at least one full chunk is
buffered, flush `len(buffer) // flush_amount` chunks, each via the retry-wrapped
drain; otherwise flush the remaining items until the buffer empties. -/
def writerFlush (fa : Nat) (store : Nat → BatchResp) (oracle : Nat → Nat)
    (s : WriterState ι) : WriterState ι × Option ClientError :=
  if s.buffer.length / fa > 0 then
    flushChunks fa store oracle (s.buffer.length / fa) s
  else
    flushRemainder fa store oracle s

/-- A non-retryable classified error. -/
def validationError : ClientError := ⟨some ⟨some "ValidationException"⟩⟩

/-- An oracle that always draws 0. -/
def oracleZero : Nat → Nat := fun _ => 0

/-- Three pages of three items each, the first two carrying continuation
tokens. -/
def pages333 : List (Page Nat Nat) :=
  [⟨[0, 1, 2], some 100⟩, ⟨[3, 4, 5], some 101⟩, ⟨[6, 7, 8], none⟩]

/-- Three pages of sizes 10, 10 and 4; the last page has no continuation
token. -/
def pages24 : List (Page Nat Nat) :=
  [⟨[0, 1, 2, 3, 4, 5, 6, 7, 8, 9], some 100⟩,
   ⟨[10, 11, 12, 13, 14, 15, 16, 17, 18, 19], some 101⟩,
   ⟨[20, 21, 22, 23], none⟩]

/-- Request parameters with `Limit` 5 and no start key. -/
def kwLimit5 : Params Unit Nat := ⟨(), some 5, none⟩

/-- Request parameters without a `Limit`. -/
def kwNoLimit : Params Unit Nat := ⟨(), none, none⟩

/-- A writer state buffering 60 distinct pending items. -/
def w60 : WriterState Nat := ⟨List.range 60, 0, []⟩

/-- A store that acknowledges every batch-write call. -/
def storeAllOk : Nat → BatchResp := fun _ => BatchResp.ok

/-- A store whose second batch-write call fails with a throughput-exceeded
error and which acknowledges every other call. -/
def storeFailSecond : Nat → BatchResp :=
  fun n => if n = 1 then BatchResp.err throughputError else BatchResp.ok

/-- A store that rejects every batch-write call with a non-retryable error. -/
def storeAllFail : Nat → BatchResp := fun _ => BatchResp.err validationError

theorem classifiedCode_throughput :
    throughputError.classifiedCode = some provisionedThroughputExceeded := rfl

theorem retryGo_allFail (k : Nat) (op : Nat → Except ClientError α) (oracle : Nat → Nat)
    (h : ∀ n, ∃ e, op n = Except.error e ∧
      e.classifiedCode = some provisionedThroughputExceeded) :
    ∀ fuel attempt backOff, attempt ≤ k + 1 → k + 2 ≤ fuel + attempt →
      (retryGo k op oracle fuel backOff attempt).calls = k + 2 ∧
      (retryGo k op oracle fuel backOff attempt).result = op (k + 1) := by
  intro fuel
  induction fuel with
  | zero => intro attempt backOff h1 h2; omega
  | succ fuel ih =>
    intro attempt backOff h1 h2
    obtain ⟨e, he, hc⟩ := h attempt
    by_cases ha : attempt > k
    · have haeq : attempt = k + 1 := by omega
      subst haeq
      simp only [retryGo, he, hc, if_pos ha, if_true]
      exact ⟨trivial, trivial⟩
    · have := ih (attempt + 1) (randint (oracle attempt) 0 (min cap (base * 2 ^ attempt)))
        (by omega) (by omega)
      simp only [retryGo, he, hc, if_true, if_neg ha]
      exact this

/-- C1: for an operation that fails with a throughput-exceeded classified error
on every invocation, the retry wrapper invokes it exactly `max_attempts + 2`
times (12 times for the source's fixed `nr_of_retries = 10`) and then re-raises
the failure of the last invocation to the caller. -/
theorem C1_throughput_retry_attempt_count (k : Nat) (op : Nat → Except ClientError α)
    (oracle : Nat → Nat)
    (h : ∀ n, ∃ e, op n = Except.error e ∧
      e.classifiedCode = some provisionedThroughputExceeded) :
    (back_off_and_jitter_with k op oracle).calls = k + 2 ∧
    (back_off_and_jitter_with k op oracle).result = op (k + 1) ∧
    (back_off_and_jitter op oracle).calls = 12 ∧
    (back_off_and_jitter op oracle).result = op 11 := by
  have h1 := retryGo_allFail k op oracle h (k + 2) 0 initialBackOff (by omega) (by omega)
  have h2 := retryGo_allFail nrOfRetries op oracle h (nrOfRetries + 2) 0 initialBackOff
    (by omega) (by omega)
  exact ⟨h1.1, h1.2, h2.1, h2.2⟩

theorem C1_attempt_count_witness :
    (back_off_and_jitter_with 3 alwaysThroughput oracleZero).calls = 5 ∧
    (back_off_and_jitter alwaysThroughput oracleZero).calls = 12 := by
  have h := C1_throughput_retry_attempt_count 3 alwaysThroughput oracleZero
    (fun n => ⟨throughputError, rfl, rfl⟩)
  exact ⟨h.1, h.2.2.1⟩

theorem back_off_first_not_throughput (op : Nat → Except ClientError α)
    (oracle : Nat → Nat) (e : ClientError) (h0 : op 0 = Except.error e)
    (hc : ¬ e.classifiedCode = some provisionedThroughputExceeded) :
    back_off_and_jitter op oracle = ⟨Except.error e, 1, []⟩ := by
  simp only [back_off_and_jitter, back_off_and_jitter_with, nrOfRetries]
  norm_num
  simp only [retryGo, h0, if_neg hc]

/-- C6: an operation whose first failure carries any classified code other than
throughput-exceeded is invoked exactly once; the wrapper re-raises the failure
immediately with no sleep and no retry. -/
theorem C6_non_retryable_single_attempt (op : Nat → Except ClientError α)
    (oracle : Nat → Nat) (e : ClientError) (h0 : op 0 = Except.error e)
    (hc : ¬ e.classifiedCode = some provisionedThroughputExceeded) :
    back_off_and_jitter op oracle = ⟨Except.error e, 1, []⟩ :=
  back_off_first_not_throughput op oracle e h0 hc

theorem C6_non_retryable_witness :
    back_off_and_jitter (fun _ => (Except.error validationError : Except ClientError Unit))
      oracleZero = ⟨Except.error validationError, 1, []⟩ :=
  C6_non_retryable_single_attempt _ oracleZero validationError rfl (by decide)

/-- C9: a `ClientError` whose response lacks the `Error` entry, or whose
`Error` entry lacks the `Code` key, classifies to `None`; the wrapper treats it
as non-retryable and re-raises it after a single attempt with no sleep and no
crash on the missing keys. -/
theorem C9_missing_error_keys_single_attempt (op : Nat → Except ClientError α)
    (oracle : Nat → Nat) (e : ClientError) (h0 : op 0 = Except.error e)
    (hk : e.errorEntry = none ∨ ∃ entry, e.errorEntry = some entry ∧ entry.code = none) :
    e.classifiedCode = none ∧ back_off_and_jitter op oracle = ⟨Except.error e, 1, []⟩ := by
  have hcode : e.classifiedCode = none := by
    rcases hk with hk | ⟨entry, hk, hcode⟩
    · simp [ClientError.classifiedCode, hk]
    · simp [ClientError.classifiedCode, hk, hcode]
  refine ⟨hcode, back_off_first_not_throughput op oracle e h0 ?_⟩
  simp [hcode]

theorem randint_le_right (r h : Nat) : randint r 0 h ≤ h := by
  have := Nat.mod_lt r (show 0 < h - 0 + 1 by omega)
  simp only [randint]
  omega

theorem randint_exact (v h : Nat) (hv : v ≤ h) : randint v 0 h = v := by
  simp only [randint, Nat.mod_eq_of_lt (show v < h - 0 + 1 by omega), Nat.zero_add]

theorem retryGo_sleeps_le (k : Nat) (op : Nat → Except ClientError α) (oracle : Nat → Nat) :
    ∀ fuel attempt backOff, backOff ≤ min cap (base * 2 ^ attempt) →
      ∀ i v, (retryGo k op oracle fuel backOff attempt).sleeps.get? i = some v →
        v ≤ min cap (base * 2 ^ (attempt + i)) := by
  intro fuel
  induction fuel with
  | zero => intro attempt backOff hb i v h; simp [retryGo] at h
  | succ fuel ih =>
    intro attempt backOff hb i v h
    cases hop : op attempt with
    | ok a => simp [retryGo, hop] at h
    | error e =>
      by_cases hc : e.classifiedCode = some provisionedThroughputExceeded
      · by_cases ha : attempt > k
        · simp [retryGo, hop, hc, ha] at h
        · simp only [retryGo, hop, hc, if_true, if_neg ha] at h
          cases i with
          | zero =>
            simp only [List.get?_cons_zero, Option.some.injEq] at h
            subst h
            simpa using hb
          | succ j =>
            simp only [List.get?_cons_succ] at h
            have hmono : min cap (base * 2 ^ attempt) ≤ min cap (base * 2 ^ (attempt + 1)) :=
              min_le_min (le_refl cap)
                (Nat.mul_le_mul_left base (Nat.pow_le_pow_right (by norm_num) (by omega)))
            have hb2 : randint (oracle attempt) 0 (min cap (base * 2 ^ attempt)) ≤
                min cap (base * 2 ^ (attempt + 1)) :=
              le_trans (randint_le_right _ _) hmono
            have := ih (attempt + 1) _ hb2 j v h
            have harith : attempt + 1 + j = attempt + (j + 1) := by omega
            rwa [harith] at this
      · simp [retryGo, hop, hc] at h

theorem sleeps_alwaysThroughput (oracle : Nat → Nat) :
    (back_off_and_jitter alwaysThroughput oracle).sleeps =
      [1, randint (oracle 0) 0 1, randint (oracle 1) 0 2, randint (oracle 2) 0 4,
       randint (oracle 3) 0 8, randint (oracle 4) 0 16, randint (oracle 5) 0 32,
       randint (oracle 6) 0 60, randint (oracle 7) 0 60, randint (oracle 8) 0 60,
       randint (oracle 9) 0 60] := by
  simp [back_off_and_jitter, back_off_and_jitter_with, nrOfRetries, retryGo, alwaysThroughput,
        throughputError, ClientError.classifiedCode, initialBackOff, cap, base]

/-- C5 (amended): the delay slept before retry attempt `i` (0-indexed) always
lies in the claimed range `[0, min(cap, base * 2 ^ i)]` and never exceeds the
cap of 60 seconds, but it is not uniformly random in that range: the delay
before the first retry is always exactly `initial_backoff = 1`, and the delay
before retry attempt `i + 1` is the jitter draw over the one-exponent-lower
range `[0, min(cap, base * 2 ^ i)]`, every value of which is attainable. -/
theorem C5_backoff_delay_amended :
    (∀ (op : Nat → Except ClientError α) (oracle : Nat → Nat) (i v : Nat),
        (back_off_and_jitter op oracle).sleeps.get? i = some v →
          v ≤ min cap (base * 2 ^ i) ∧ v ≤ cap) ∧
    (∀ oracle : Nat → Nat,
        (back_off_and_jitter alwaysThroughput oracle).sleeps.get? 0 = some initialBackOff) ∧
    (∀ i v : Nat, i ≤ 9 → v ≤ min cap (base * 2 ^ i) →
        ∃ oracle : Nat → Nat,
          (back_off_and_jitter alwaysThroughput oracle).sleeps.get? (i + 1) = some v) := by
  refine ⟨?_, ?_, ?_⟩
  · intro op oracle i v h
    have := retryGo_sleeps_le nrOfRetries op oracle (nrOfRetries + 2) 0 initialBackOff
      (by decide) i v h
    rw [Nat.zero_add] at this
    exact ⟨this, le_trans this (min_le_left _ _)⟩
  · intro oracle
    rw [sleeps_alwaysThroughput]
    rfl
  · intro i v hi hv
    refine ⟨fun _ => v, ?_⟩
    rw [sleeps_alwaysThroughput]
    have hv2 : v ≤ min 60 (2 ^ i) := by simpa [cap, base] using hv
    interval_cases i <;> simp_all [randint] <;> omega

/-- C5 counterexample: the claim that the delay slept before a retry attempt is
a uniformly random integer over the full claimed range fails at the first
retry: the value 0 lies in the claimed range `[0, min(cap, base * 2 ^ 0)]`, yet
no execution ever sleeps 0 there, because the first delay is always the fixed
`initial_backoff = 1`. -/
theorem C5_first_delay_not_uniform :
    ¬ (∀ v : Nat, v ≤ min cap (base * 2 ^ 0) →
        ∃ oracle : Nat → Nat,
          (back_off_and_jitter alwaysThroughput oracle).sleeps.get? 0 = some v) := by
  intro hcl
  obtain ⟨oracle, h⟩ := hcl 0 (by decide)
  rw [sleeps_alwaysThroughput] at h
  simp at h

theorem C5_backoff_delay_amended_witness :
    ((1 : Nat) ≤ min cap (base * 2 ^ 0) ∧ (1 : Nat) ≤ cap) ∧
    (back_off_and_jitter alwaysThroughput oracleZero).sleeps.get? 0 = some initialBackOff ∧
    ∃ oracle : Nat → Nat,
      (back_off_and_jitter alwaysThroughput oracle).sleeps.get? (3 + 1) = some 5 := by
  have h := C5_backoff_delay_amended (α := Unit)
  exact ⟨h.1 alwaysThroughput oracleZero 0 1 (by decide), h.2.1 oracleZero,
    h.2.2 3 5 (by decide) (by decide)⟩

theorem C9_missing_error_keys_witness :
    (⟨none⟩ : ClientError).classifiedCode = none ∧
    back_off_and_jitter (fun _ => (Except.error ⟨none⟩ : Except ClientError Unit))
      oracleZero = ⟨Except.error ⟨none⟩, 1, []⟩ :=
  C9_missing_error_keys_single_attempt _ oracleZero ⟨none⟩ rfl (Or.inl rfl)

theorem scanPageItems_nonpos (l : Int) (hl : ¬ 0 < l) :
    ∀ (c : Int) (xs : List α), scanPageItems l c xs = (xs, c, false) := by
  intro c xs
  induction xs generalizing c with
  | nil => rfl
  | cons x xs ih => simp [scanPageItems, hl, ih]

theorem queryPageItems_zero :
    ∀ (c : Int) (xs : List α), queryPageItems 0 c xs = (xs, c + xs.length, false) := by
  intro c xs
  induction xs generalizing c with
  | nil => simp [queryPageItems]
  | cons x xs ih =>
    simp [queryPageItems, ih, List.length_cons]
    ring

theorem scanPageItems_pos (l : Int) (hl : 0 < l) :
    ∀ (xs : List α) (c : Int), c < l →
      ((scanPageItems l c xs).1.length : Int) = (scanPageItems l c xs).2.1 - c ∧
      (scanPageItems l c xs).2.1 ≤ l ∧
      ((scanPageItems l c xs).2.2 = false → (scanPageItems l c xs).2.1 < l) := by
  intro xs
  induction xs with
  | nil => intro c hc; simp [scanPageItems]; omega
  | cons x xs ih =>
    intro c hc
    by_cases hstop : l ≠ 0 ∧ c + 1 ≥ l
    · simp [scanPageItems, hl, hstop]
      omega
    · have h2 : c + 1 < l := by
        push_neg at hstop
        have := hstop (by omega)
        omega
      obtain ⟨ih1, ih2, ih3⟩ := ih (c + 1) h2
      simp only [scanPageItems, if_pos hl, if_neg hstop]
      refine ⟨?_, ih2, fun h => ih3 h⟩
      simp only [List.length_cons]
      push_cast
      omega

theorem queryPageItems_pos (l : Int) (hl : 0 < l) :
    ∀ (xs : List α) (c : Int), c < l →
      ((queryPageItems l c xs).1.length : Int) = (queryPageItems l c xs).2.1 - c ∧
      (queryPageItems l c xs).2.1 ≤ l ∧
      ((queryPageItems l c xs).2.2 = false → (queryPageItems l c xs).2.1 < l) := by
  intro xs
  induction xs with
  | nil => intro c hc; simp [queryPageItems]; omega
  | cons x xs ih =>
    intro c hc
    by_cases hstop : l ≠ 0 ∧ c + 1 ≥ l
    · simp [queryPageItems, hstop]
      omega
    · have h2 : c + 1 < l := by
        push_neg at hstop
        have := hstop (by omega)
        omega
      obtain ⟨ih1, ih2, ih3⟩ := ih (c + 1) h2
      simp only [queryPageItems, if_neg hstop]
      refine ⟨?_, ih2, fun h => ih3 h⟩
      simp only [List.length_cons]
      push_cast
      omega

theorem scanGo_le (l : Int) (hl : 0 < l) :
    ∀ (pages : List (Page α κ)) (kw : Params ρ κ) (c : Int), c < l →
      ((scanGo pages kw l c).2.length : Int) ≤ l - c := by
  intro pages
  induction pages with
  | nil => intro kw c hc; simp [scanGo]; omega
  | cons p ps ih =>
    intro kw c hc
    obtain ⟨h1, h2, h3⟩ := scanPageItems_pos l hl p.items c hc
    by_cases hstop : (scanPageItems l c p.items).2.2
    · simp only [scanGo, if_pos hstop]
      omega
    · have hlt := h3 (by simpa using hstop)
      cases hk : p.lastEvaluatedKey with
      | none =>
        simp only [scanGo, if_neg hstop, hk]
        omega
      | some k =>
        have hrec := ih { kw with exclusiveStartKey := some k } (scanPageItems l c p.items).2.1 hlt
        simp only [scanGo, if_neg hstop, hk, List.length_append]
        push_cast
        omega

theorem queryGo_le (l : Int) (hl : 0 < l) :
    ∀ (pages : List (Page α κ)) (kw : Params ρ κ) (c : Int), c < l →
      ((queryGo pages kw l c).2.length : Int) ≤ l - c := by
  intro pages
  induction pages with
  | nil => intro kw c hc; simp [queryGo]; omega
  | cons p ps ih =>
    intro kw c hc
    obtain ⟨h1, h2, h3⟩ := queryPageItems_pos l hl p.items c hc
    by_cases hstop : (queryPageItems l c p.items).2.2
    · simp only [queryGo, if_pos hstop]
      omega
    · have hlt := h3 (by simpa using hstop)
      cases hk : p.lastEvaluatedKey with
      | none =>
        simp only [queryGo, if_neg hstop, hk]
        omega
      | some k =>
        have hrec := ih { kw with exclusiveStartKey := some k } (queryPageItems l c p.items).2.1 hlt
        simp only [queryGo, if_neg hstop, hk, List.length_append]
        push_cast
        omega

/-- C2: with a positive `Limit`, a paginated scan or query produces at most
`Limit` items; with `Limit = 5` against pages of sizes 3, 3, 3 both readers
yield exactly the first 5 items, stopping mid-second-page with exactly 2
page fetches. -/
theorem C2_limit_bounds_output :
    (∀ (pages : List (Page α κ)) (kw : Params ρ κ),
        0 < kw.limit.getD (-1) →
        ((scan_with_back_off_and_jitter pages kw).2.length : Int) ≤ kw.limit.getD (-1)) ∧
    (∀ (pages : List (Page α κ)) (kw : Params ρ κ),
        0 < kw.limit.getD (-1) →
        ((query_with_back_off_and_jitter pages kw).2.length : Int) ≤ kw.limit.getD (-1)) ∧
    (scan_with_back_off_and_jitter pages333 kwLimit5 =
       ([kwLimit5, ⟨(), some 5, some 100⟩], [0, 1, 2, 3, 4]) ∧
     query_with_back_off_and_jitter pages333 kwLimit5 =
       ([kwLimit5, ⟨(), some 5, some 100⟩], [0, 1, 2, 3, 4])) := by
  refine ⟨?_, ?_, by decide⟩
  · intro pages kw hl
    have := scanGo_le (kw.limit.getD (-1)) hl pages kw 0 hl
    simpa [scan_with_back_off_and_jitter] using this
  · intro pages kw hl
    have := queryGo_le (kw.limit.getD (-1)) hl pages kw 0 hl
    simpa [query_with_back_off_and_jitter] using this

theorem C2_limit_bounds_output_witness :
    (0 : Int) < kwLimit5.limit.getD (-1) ∧
    ((scan_with_back_off_and_jitter pages333 kwLimit5).2.length : Int) ≤
      kwLimit5.limit.getD (-1) :=
  ⟨by decide, C2_limit_bounds_output.1 pages333 kwLimit5 (by decide)⟩

/-- C3 (evaluation at the failing input): invoked without a `Limit`,
`query_with_back_off_and_jitter` defaults `limit` to -1, so
`if limit and item_counter >= limit` fires after the very first item: against
pages of sizes 10, 10, 4 it yields only the first item with a single fetch,
while the scan twin (which guards the counter with `if limit > 0`) yields all
24 items in order with 3 fetches, as the claim demands. -/
theorem C3_query_unlimited_truncation_eval :
    query_with_back_off_and_jitter pages24 kwNoLimit = ([kwNoLimit], [0]) ∧
    scan_with_back_off_and_jitter pages24 kwNoLimit =
      ([kwNoLimit, ⟨(), none, some 100⟩, ⟨(), none, some 101⟩],
       [0, 1, 2, 3, 4, 5, 6, 7, 8, 9, 10, 11, 12, 13, 14, 15, 16, 17, 18, 19,
        20, 21, 22, 23]) := by
  decide

theorem scanGo_nonpos_items (l1 l2 : Int) (h1 : ¬ 0 < l1) (h2 : ¬ 0 < l2) :
    ∀ (pages : List (Page α κ)) (kw1 kw2 : Params ρ κ) (c1 c2 : Int),
      (scanGo pages kw1 l1 c1).2 = (scanGo pages kw2 l2 c2).2 ∧
      (scanGo pages kw1 l1 c1).1.length = (scanGo pages kw2 l2 c2).1.length := by
  intro pages
  induction pages with
  | nil => intro kw1 kw2 c1 c2; simp [scanGo]
  | cons p ps ih =>
    intro kw1 kw2 c1 c2
    simp only [scanGo, scanPageItems_nonpos l1 h1, scanPageItems_nonpos l2 h2,
      Bool.false_eq_true, if_false]
    cases hk : p.lastEvaluatedKey with
    | none => simp
    | some k =>
      have := ih { kw1 with exclusiveStartKey := some k }
        { kw2 with exclusiveStartKey := some k } c1 c2
      simp [this.1, this.2]

theorem queryGo_zero_items (l2 : Int) (h2 : ¬ 0 < l2) :
    ∀ (pages : List (Page α κ)) (kw1 kw2 : Params ρ κ) (c1 c2 : Int),
      (queryGo pages kw1 0 c1).2 = (scanGo pages kw2 l2 c2).2 ∧
      (queryGo pages kw1 0 c1).1.length = (scanGo pages kw2 l2 c2).1.length := by
  intro pages
  induction pages with
  | nil => intro kw1 kw2 c1 c2; simp [scanGo, queryGo]
  | cons p ps ih =>
    intro kw1 kw2 c1 c2
    simp only [scanGo, queryGo, queryPageItems_zero, scanPageItems_nonpos l2 h2,
      Bool.false_eq_true, if_false]
    cases hk : p.lastEvaluatedKey with
    | none => simp
    | some k =>
      have := ih { kw1 with exclusiveStartKey := some k }
        { kw2 with exclusiveStartKey := some k } (c1 + p.items.length) c2
      simp [this.1, this.2]

theorem scanGo_cons_some (hl : ¬ 0 < l) (p : Page α κ) (ps : List (Page α κ))
    (kw : Params ρ κ) (c : Int) (k : κ) (hk : p.lastEvaluatedKey = some k) :
    scanGo (p :: ps) kw l c =
      (kw :: (scanGo ps { kw with exclusiveStartKey := some k } l c).1,
       p.items ++ (scanGo ps { kw with exclusiveStartKey := some k } l c).2) := by
  simp [scanGo, scanPageItems_nonpos l hl, hk]

theorem scanGo_nonpos_chain (l : Int) (hl : ¬ 0 < l) :
    ∀ (pages : List (Page α κ)) (kw : Params ρ κ) (c : Int), chainOk pages = true →
      (scanGo pages kw l c).2 = (pages.map Page.items).flatten ∧
      (scanGo pages kw l c).1.length = pages.length := by
  intro pages
  induction pages with
  | nil => intro kw c hch; simp [chainOk] at hch
  | cons p ps ih =>
    intro kw c hch
    rcases ps with _ | ⟨q, qs⟩
    · have hk : p.lastEvaluatedKey = none := by
        simpa [chainOk, Option.isNone_iff_eq_none] using hch
      simp [scanGo, scanPageItems_nonpos l hl, hk]
    · simp only [chainOk, Bool.and_eq_true] at hch
      obtain ⟨k, hk⟩ := Option.isSome_iff_exists.mp hch.1
      have hrec := ih { kw with exclusiveStartKey := some k } c hch.2
      rw [scanGo_cons_some hl p (q :: qs) kw c k hk]
      simp [hrec.1, hrec.2]

/-- C8 (amended): a `Limit` of 0 is falsy in `if limit and ...`, so both readers
treat `Limit = 0` exactly like an absent `Limit`: every item of every page is
produced (not zero items) and the reader still terminates, fetching each page
of a well-formed chain exactly once. -/
theorem C8_zero_limit_unbounded :
    (∀ (pages : List (Page α κ)) (r : ρ),
        (scan_with_back_off_and_jitter pages (⟨r, some 0, none⟩ : Params ρ κ)).2 =
          (scan_with_back_off_and_jitter pages (⟨r, none, none⟩ : Params ρ κ)).2) ∧
    (∀ (pages : List (Page α κ)) (r : ρ),
        (query_with_back_off_and_jitter pages (⟨r, some 0, none⟩ : Params ρ κ)).2 =
          (scan_with_back_off_and_jitter pages (⟨r, none, none⟩ : Params ρ κ)).2) ∧
    (∀ (pages : List (Page α κ)) (r : ρ), chainOk pages = true →
        (scan_with_back_off_and_jitter pages (⟨r, some 0, none⟩ : Params ρ κ)).2 =
          (pages.map Page.items).flatten ∧
        (scan_with_back_off_and_jitter pages (⟨r, some 0, none⟩ : Params ρ κ)).1.length =
          pages.length ∧
        (query_with_back_off_and_jitter pages (⟨r, some 0, none⟩ : Params ρ κ)).2 =
          (pages.map Page.items).flatten ∧
        (query_with_back_off_and_jitter pages (⟨r, some 0, none⟩ : Params ρ κ)).1.length =
          pages.length) := by
  have hz : ¬ (0 : Int) < 0 := by omega
  have hm : ¬ (0 : Int) < -1 := by omega
  refine ⟨?_, ?_, ?_⟩
  · intro pages r
    exact (scanGo_nonpos_items 0 (-1) hz hm pages ⟨r, some 0, none⟩ ⟨r, none, none⟩ 0 0).1
  · intro pages r
    exact (queryGo_zero_items (-1) hm pages ⟨r, some 0, none⟩ ⟨r, none, none⟩ 0 0).1
  · intro pages r hch
    have hs := scanGo_nonpos_chain 0 hz pages ⟨r, some 0, none⟩ 0 hch
    have hs2 := scanGo_nonpos_chain (-1) hm pages ⟨r, none, none⟩ 0 hch
    have hq1 := queryGo_zero_items (-1) hm pages ⟨r, some 0, none⟩ ⟨r, none, none⟩ 0 0
    refine ⟨hs.1, hs.2, ?_, ?_⟩
    · exact hq1.1.trans hs2.1
    · exact hq1.2.trans hs2.2

/-- C8 counterexample: with `Limit = 0` the scan reader does not produce zero
items; against a single one-item page it yields that item. -/
theorem C8_zero_limit_produces_items :
    (scan_with_back_off_and_jitter [⟨[7], none⟩]
      (⟨(), some 0, none⟩ : Params Unit Nat)).2 ≠ [] := by
  decide

theorem C8_zero_limit_unbounded_witness :
    chainOk pages333 = true ∧
    (scan_with_back_off_and_jitter pages333 (⟨(), some 0, none⟩ : Params Unit Nat)).2 =
      (pages333.map Page.items).flatten :=
  ⟨by decide, (C8_zero_limit_unbounded.2.2 pages333 () (by decide)).1⟩

theorem scanGo_fst_first :
    ∀ (pages : List (Page α κ)) (kw : Params ρ κ) (l c : Int) (q : Params ρ κ)
      (t : List (Params ρ κ)), (scanGo pages kw l c).1 = q :: t → q = kw := by
  intro pages kw l c q t h
  cases pages with
  | nil => simp [scanGo] at h
  | cons p ps =>
    simp only [scanGo] at h
    by_cases hstop : (scanPageItems l c p.items).2.2
    · simp [hstop] at h
      exact h.1.symm
    · cases hk : p.lastEvaluatedKey with
      | none =>
        simp [hstop, hk] at h
        exact h.1.symm
      | some k =>
        simp [hstop, hk] at h
        exact h.1.symm

theorem queryGo_fst_first :
    ∀ (pages : List (Page α κ)) (kw : Params ρ κ) (l c : Int) (q : Params ρ κ)
      (t : List (Params ρ κ)), (queryGo pages kw l c).1 = q :: t → q = kw := by
  intro pages kw l c q t h
  cases pages with
  | nil => simp [queryGo] at h
  | cons p ps =>
    simp only [queryGo] at h
    by_cases hstop : (queryPageItems l c p.items).2.2
    · simp [hstop] at h
      exact h.1.symm
    · cases hk : p.lastEvaluatedKey with
      | none =>
        simp [hstop, hk] at h
        exact h.1.symm
      | some k =>
        simp [hstop, hk] at h
        exact h.1.symm

theorem scanGo_frame :
    ∀ (pages : List (Page α κ)) (kw : Params ρ κ) (l c : Int) (i : Nat)
      (q qp : Params ρ κ),
      (scanGo pages kw l c).1.get? i = some qp →
      (scanGo pages kw l c).1.get? (i + 1) = some q →
      q.rest = qp.rest ∧ q.limit = qp.limit ∧
      ∃ p, pages.get? i = some p ∧ q.exclusiveStartKey = p.lastEvaluatedKey := by
  intro pages
  induction pages with
  | nil => intro kw l c i q qp h1 h2; simp [scanGo] at h1
  | cons p ps ih =>
    intro kw l c i q qp h1 h2
    by_cases hstop : (scanPageItems l c p.items).2.2
    · simp only [scanGo] at h2
      simp [hstop] at h2
    · cases hk : p.lastEvaluatedKey with
      | none =>
        simp only [scanGo] at h2
        simp [hstop, hk] at h2
      | some k =>
        simp only [scanGo] at h1 h2
        simp only [hstop, Bool.false_eq_true, if_false, hk] at h1 h2
        cases i with
        | zero =>
          simp only [List.get?_cons_zero, Option.some.injEq] at h1
          simp only [List.get?_cons_succ] at h2
          cases ht : (scanGo ps { kw with exclusiveStartKey := some k } l
              (scanPageItems l c p.items).2.1).1 with
          | nil => rw [ht] at h2; simp at h2
          | cons a as =>
            rw [ht] at h2
            simp only [List.get?_cons_zero, Option.some.injEq] at h2
            have ha := scanGo_fst_first ps { kw with exclusiveStartKey := some k } l
              (scanPageItems l c p.items).2.1 a as ht
            subst h2
            subst h1
            subst ha
            exact ⟨rfl, rfl, p, rfl, hk.symm⟩
        | succ j =>
          simp only [List.get?_cons_succ] at h1 h2
          have := ih { kw with exclusiveStartKey := some k } l
            (scanPageItems l c p.items).2.1 j q qp h1 h2
          simpa using this

theorem queryGo_frame :
    ∀ (pages : List (Page α κ)) (kw : Params ρ κ) (l c : Int) (i : Nat)
      (q qp : Params ρ κ),
      (queryGo pages kw l c).1.get? i = some qp →
      (queryGo pages kw l c).1.get? (i + 1) = some q →
      q.rest = qp.rest ∧ q.limit = qp.limit ∧
      ∃ p, pages.get? i = some p ∧ q.exclusiveStartKey = p.lastEvaluatedKey := by
  intro pages
  induction pages with
  | nil => intro kw l c i q qp h1 h2; simp [queryGo] at h1
  | cons p ps ih =>
    intro kw l c i q qp h1 h2
    by_cases hstop : (queryPageItems l c p.items).2.2
    · simp only [queryGo] at h2
      simp [hstop] at h2
    · cases hk : p.lastEvaluatedKey with
      | none =>
        simp only [queryGo] at h2
        simp [hstop, hk] at h2
      | some k =>
        simp only [queryGo] at h1 h2
        simp only [hstop, Bool.false_eq_true, if_false, hk] at h1 h2
        cases i with
        | zero =>
          simp only [List.get?_cons_zero, Option.some.injEq] at h1
          simp only [List.get?_cons_succ] at h2
          cases ht : (queryGo ps { kw with exclusiveStartKey := some k } l
              (queryPageItems l c p.items).2.1).1 with
          | nil => rw [ht] at h2; simp at h2
          | cons a as =>
            rw [ht] at h2
            simp only [List.get?_cons_zero, Option.some.injEq] at h2
            have ha := queryGo_fst_first ps { kw with exclusiveStartKey := some k } l
              (queryPageItems l c p.items).2.1 a as ht
            subst h2
            subst h1
            subst ha
            exact ⟨rfl, rfl, p, rfl, hk.symm⟩
        | succ j =>
          simp only [List.get?_cons_succ] at h1 h2
          have := ih { kw with exclusiveStartKey := some k } l
            (queryPageItems l c p.items).2.1 j q qp h1 h2
          simpa using this

/-- C10: between two consecutive page fetches of either reader, every request
parameter other than `ExclusiveStartKey` (the opaque `rest` and the `Limit`) is
passed unchanged, and the new `ExclusiveStartKey` is exactly the
`LastEvaluatedKey` of the page returned by the previous fetch. -/
theorem C10_request_frame :
    (∀ (pages : List (Page α κ)) (kw : Params ρ κ) (i : Nat) (q qp : Params ρ κ),
        (scan_with_back_off_and_jitter pages kw).1.get? i = some qp →
        (scan_with_back_off_and_jitter pages kw).1.get? (i + 1) = some q →
        q.rest = qp.rest ∧ q.limit = qp.limit ∧
        ∃ p, pages.get? i = some p ∧ q.exclusiveStartKey = p.lastEvaluatedKey) ∧
    (∀ (pages : List (Page α κ)) (kw : Params ρ κ) (i : Nat) (q qp : Params ρ κ),
        (query_with_back_off_and_jitter pages kw).1.get? i = some qp →
        (query_with_back_off_and_jitter pages kw).1.get? (i + 1) = some q →
        q.rest = qp.rest ∧ q.limit = qp.limit ∧
        ∃ p, pages.get? i = some p ∧ q.exclusiveStartKey = p.lastEvaluatedKey) := by
  constructor
  · intro pages kw i q qp h1 h2
    exact scanGo_frame pages kw (kw.limit.getD (-1)) 0 i q qp h1 h2
  · intro pages kw i q qp h1 h2
    exact queryGo_frame pages kw (kw.limit.getD (-1)) 0 i q qp h1 h2

theorem C10_request_frame_witness :
    (scan_with_back_off_and_jitter pages333 kwNoLimit).1.get? 0 = some kwNoLimit ∧
    (scan_with_back_off_and_jitter pages333 kwNoLimit).1.get? 1 =
      some ⟨(), none, some 100⟩ ∧
    ((⟨(), none, some 100⟩ : Params Unit Nat).rest = kwNoLimit.rest ∧
     (⟨(), none, some 100⟩ : Params Unit Nat).limit = kwNoLimit.limit ∧
     ∃ p, pages333.get? 0 = some p ∧
       (⟨(), none, some 100⟩ : Params Unit Nat).exclusiveStartKey =
         p.lastEvaluatedKey) := by
  have h1 : (scan_with_back_off_and_jitter pages333 kwNoLimit).1.get? 0 =
      some kwNoLimit := by decide
  have h2 : (scan_with_back_off_and_jitter pages333 kwNoLimit).1.get? 1 =
      some ⟨(), none, some 100⟩ := by decide
  exact ⟨h1, h2, C10_request_frame.1 pages333 kwNoLimit 0 _ _ h1 h2⟩

theorem drainGo_none_empty (fa : Nat) (store : Nat → BatchResp) (hfa : 0 < fa) :
    ∀ (fuel : Nat) (s s1 : WriterState ι), s.buffer.length < fuel →
      drainGo fa store fuel s = (s1, none) → s1.buffer = [] := by
  intro fuel
  induction fuel with
  | zero => intro s s1 h hd; omega
  | succ fuel ih =>
    intro s s1 h hd
    by_cases hb : s.buffer.isEmpty
    · simp only [drainGo, if_pos hb] at hd
      injection hd with h1 h2
      subst h1
      exact List.isEmpty_iff.mp hb
    · simp only [drainGo, if_neg hb] at hd
      cases hsr : store s.storeCalls with
      | ok =>
        simp only [baseFlush, hsr] at hd
        have hne : s.buffer ≠ [] := by simpa [List.isEmpty_iff] using hb
        have hlen : 0 < s.buffer.length := List.length_pos.mpr hne
        refine ih _ s1 ?_ hd
        simp only [List.length_drop]
        omega
      | err e =>
        simp only [baseFlush, hsr] at hd
        simp at hd

theorem drainBody_none_empty (fa : Nat) (store : Nat → BatchResp) (hfa : 0 < fa)
    (s s1 : WriterState ι) (hd : drainBody fa store s = (s1, none)) :
    s1.buffer = [] :=
  drainGo_none_empty fa store hfa (s.buffer.length + 1) s s1 (by omega) hd

theorem retryDrainGo_none_empty (fa : Nat) (store : Nat → BatchResp) (oracle : Nat → Nat)
    (hfa : 0 < fa) :
    ∀ (fuel backOff attempt : Nat) (s s1 : WriterState ι),
      nrOfRetries + 2 ≤ fuel + attempt → attempt ≤ nrOfRetries + 1 →
      retryDrainGo fa store oracle fuel backOff attempt s = (s1, none) →
      s1.buffer = [] := by
  intro fuel
  induction fuel with
  | zero =>
    intro backOff attempt s s1 h1 h2 hd
    simp [nrOfRetries] at h1 h2
    omega
  | succ fuel ih =>
    intro backOff attempt s s1 h1 h2 hd
    simp only [retryDrainGo] at hd
    split at hd
    · next s2 heq =>
      injection hd with ha hb
      subst ha
      exact drainBody_none_empty fa store hfa s s2 heq
    · next s2 e heq =>
      by_cases hc : e.classifiedCode = some provisionedThroughputExceeded
      · rw [if_pos hc] at hd
        by_cases ha : attempt > nrOfRetries
        · rw [if_pos ha] at hd
          simp at hd
        · rw [if_neg ha] at hd
          have hle : attempt ≤ nrOfRetries := by omega
          exact ih _ (attempt + 1) s2 s1 (by omega) (by omega) hd
      · rw [if_neg hc] at hd
        simp at hd

theorem retryDrain_none_empty (fa : Nat) (store : Nat → BatchResp) (oracle : Nat → Nat)
    (hfa : 0 < fa) (s s1 : WriterState ι)
    (hd : retryDrain fa store oracle s = (s1, none)) : s1.buffer = [] := by
  simp only [retryDrain] at hd
  exact retryDrainGo_none_empty fa store oracle hfa (nrOfRetries + 2) initialBackOff 0 s s1
    (by omega) (by omega) hd

theorem flushChunks_none_empty (fa : Nat) (store : Nat → BatchResp) (oracle : Nat → Nat)
    (hfa : 0 < fa) :
    ∀ (n : Nat) (s s1 : WriterState ι), 0 < n →
      flushChunks fa store oracle n s = (s1, none) → s1.buffer = [] := by
  intro n
  induction n with
  | zero => intro s s1 h hd; omega
  | succ n ih =>
    intro s s1 h hd
    simp only [flushChunks] at hd
    split at hd
    · next s2 heq =>
      cases n with
      | zero =>
        simp only [flushChunks] at hd
        injection hd with ha hb
        subst ha
        exact retryDrain_none_empty fa store oracle hfa s s2 heq
      | succ m => exact ih s2 s1 (by omega) hd
    · next s2 e heq => simp at hd

theorem flushRemainderGo_none_empty (fa : Nat) (store : Nat → BatchResp)
    (oracle : Nat → Nat) (hfa : 0 < fa) :
    ∀ (fuel : Nat) (s s1 : WriterState ι), s.buffer.length < fuel →
      flushRemainderGo fa store oracle fuel s = (s1, none) → s1.buffer = [] := by
  intro fuel
  induction fuel with
  | zero => intro s s1 h hd; omega
  | succ fuel ih =>
    intro s s1 h hd
    by_cases hb : s.buffer.isEmpty
    · simp only [flushRemainderGo, if_pos hb] at hd
      injection hd with h1 h2
      subst h1
      exact List.isEmpty_iff.mp hb
    · simp only [flushRemainderGo, if_neg hb] at hd
      split at hd
      · next s2 heq =>
        have h2 := retryDrain_none_empty fa store oracle hfa s s2 heq
        have hne : s.buffer ≠ [] := by simpa [List.isEmpty_iff] using hb
        have hlen : 0 < s.buffer.length := List.length_pos.mpr hne
        refine ih s2 s1 ?_ hd
        simp [h2]
        omega
      · next s2 e heq => simp at hd

theorem writerFlush_none_empty (fa : Nat) (store : Nat → BatchResp) (oracle : Nat → Nat)
    (hfa : 0 < fa) (s s1 : WriterState ι)
    (hd : writerFlush fa store oracle s = (s1, none)) : s1.buffer = [] := by
  simp only [writerFlush] at hd
  split at hd
  · next hq =>
    exact flushChunks_none_empty fa store oracle hfa (s.buffer.length / fa) s s1 hq hd
  · next hq =>
    simp only [flushRemainder] at hd
    exact flushRemainderGo_none_empty fa store oracle hfa (s.buffer.length + 1) s s1
      (by omega) hd

theorem drainGo_drop (fa : Nat) (store : Nat → BatchResp) :
    ∀ (fuel : Nat) (s : WriterState ι),
      ∃ k2, (drainGo fa store fuel s).1.buffer = s.buffer.drop k2 := by
  intro fuel
  induction fuel with
  | zero => intro s; exact ⟨0, by simp [drainGo]⟩
  | succ fuel ih =>
    intro s
    by_cases hb : s.buffer.isEmpty
    · exact ⟨0, by simp [drainGo, if_pos hb]⟩
    · cases hsr : store s.storeCalls with
      | ok =>
        obtain ⟨k2, hk2⟩ :=
          ih ⟨s.buffer.drop fa, s.storeCalls + 1, s.sent ++ [s.buffer.take fa]⟩
        refine ⟨k2 + fa, ?_⟩
        simp only [drainGo, if_neg hb, baseFlush, hsr]
        rw [hk2]
        simp [List.drop_drop, Nat.add_comm]
      | err e =>
        exact ⟨0, by simp [drainGo, if_neg hb, baseFlush, hsr]⟩

theorem retryDrainGo_drop (fa : Nat) (store : Nat → BatchResp) (oracle : Nat → Nat) :
    ∀ (fuel backOff attempt : Nat) (s : WriterState ι),
      ∃ k2, (retryDrainGo fa store oracle fuel backOff attempt s).1.buffer =
        s.buffer.drop k2 := by
  intro fuel
  induction fuel with
  | zero => intro backOff attempt s; exact ⟨0, by simp [retryDrainGo]⟩
  | succ fuel ih =>
    intro backOff attempt s
    obtain ⟨k1, hk1⟩ := drainGo_drop fa store (s.buffer.length + 1) s
    simp only [retryDrainGo]
    split
    · next s2 heq =>
      refine ⟨k1, ?_⟩
      have : s2.buffer = s.buffer.drop k1 := by
        have := congrArg (fun t => t.1.buffer) heq
        simpa [drainBody] using this.symm.trans hk1
      exact this
    · next s2 e heq =>
      have hs2 : s2.buffer = s.buffer.drop k1 := by
        have := congrArg (fun t => t.1.buffer) heq
        simpa [drainBody] using this.symm.trans hk1
      by_cases hc : e.classifiedCode = some provisionedThroughputExceeded
      · rw [if_pos hc]
        by_cases ha : attempt > nrOfRetries
        · rw [if_pos ha]
          exact ⟨k1, hs2⟩
        · rw [if_neg ha]
          obtain ⟨k2, hk2⟩ := ih _ (attempt + 1) s2
          refine ⟨k2 + k1, ?_⟩
          rw [hk2, hs2, List.drop_drop, Nat.add_comm]
      · rw [if_neg hc]
        exact ⟨k1, hs2⟩

theorem retryDrain_drop (fa : Nat) (store : Nat → BatchResp) (oracle : Nat → Nat)
    (s : WriterState ι) :
    ∃ k2, (retryDrain fa store oracle s).1.buffer = s.buffer.drop k2 :=
  retryDrainGo_drop fa store oracle (nrOfRetries + 2) initialBackOff 0 s

theorem flushChunks_drop (fa : Nat) (store : Nat → BatchResp) (oracle : Nat → Nat) :
    ∀ (n : Nat) (s : WriterState ι),
      ∃ k2, (flushChunks fa store oracle n s).1.buffer = s.buffer.drop k2 := by
  intro n
  induction n with
  | zero => intro s; exact ⟨0, by simp [flushChunks]⟩
  | succ n ih =>
    intro s
    obtain ⟨k1, hk1⟩ := retryDrain_drop fa store oracle s
    simp only [flushChunks]
    split
    · next s2 heq =>
      have hs2 : s2.buffer = s.buffer.drop k1 := by
        have := congrArg (fun t => t.1.buffer) heq
        simpa using this.symm.trans hk1
      obtain ⟨k2, hk2⟩ := ih s2
      refine ⟨k2 + k1, ?_⟩
      rw [hk2, hs2, List.drop_drop, Nat.add_comm]
    · next s2 e heq =>
      have hs2 : s2.buffer = s.buffer.drop k1 := by
        have := congrArg (fun t => t.1.buffer) heq
        simpa using this.symm.trans hk1
      exact ⟨k1, hs2⟩

theorem flushRemainderGo_drop (fa : Nat) (store : Nat → BatchResp) (oracle : Nat → Nat) :
    ∀ (fuel : Nat) (s : WriterState ι),
      ∃ k2, (flushRemainderGo fa store oracle fuel s).1.buffer = s.buffer.drop k2 := by
  intro fuel
  induction fuel with
  | zero => intro s; exact ⟨0, by simp [flushRemainderGo]⟩
  | succ fuel ih =>
    intro s
    by_cases hb : s.buffer.isEmpty
    · exact ⟨0, by simp [flushRemainderGo, if_pos hb]⟩
    · obtain ⟨k1, hk1⟩ := retryDrain_drop fa store oracle s
      simp only [flushRemainderGo, if_neg hb]
      split
      · next s2 heq =>
        have hs2 : s2.buffer = s.buffer.drop k1 := by
          have := congrArg (fun t => t.1.buffer) heq
          simpa using this.symm.trans hk1
        obtain ⟨k2, hk2⟩ := ih s2
        refine ⟨k2 + k1, ?_⟩
        rw [hk2, hs2, List.drop_drop, Nat.add_comm]
      · next s2 e heq =>
        have hs2 : s2.buffer = s.buffer.drop k1 := by
          have := congrArg (fun t => t.1.buffer) heq
          simpa using this.symm.trans hk1
        exact ⟨k1, hs2⟩

theorem writerFlush_drop (fa : Nat) (store : Nat → BatchResp) (oracle : Nat → Nat)
    (s : WriterState ι) :
    ∃ k2, (writerFlush fa store oracle s).1.buffer = s.buffer.drop k2 := by
  simp only [writerFlush]
  split
  · exact flushChunks_drop fa store oracle (s.buffer.length / fa) s
  · exact flushRemainderGo_drop fa store oracle (s.buffer.length + 1) s

/-- C4: whenever the writer's `_flush` drain returns successfully the buffer is
empty; with `flush_amount = 25` and 60 buffered items, the flush makes exactly
3 batch-write calls to the store carrying 25, 25 and 10 items, leaving the
buffer empty. -/
theorem C4_flush_empties_buffer :
    (∀ (fa : Nat) (store : Nat → BatchResp) (oracle : Nat → Nat)
        (s s1 : WriterState ι), 0 < fa →
        writerFlush fa store oracle s = (s1, none) → s1.buffer = []) ∧
    ((writerFlush 25 storeAllOk oracleZero w60).2 = none ∧
     (writerFlush 25 storeAllOk oracleZero w60).1.buffer = [] ∧
     (writerFlush 25 storeAllOk oracleZero w60).1.sent.map List.length = [25, 25, 10] ∧
     (writerFlush 25 storeAllOk oracleZero w60).1.storeCalls = 3) := by
  refine ⟨?_, by decide⟩
  intro fa store oracle s s1 hfa hd
  exact writerFlush_none_empty fa store oracle hfa s s1 hd

theorem C4_flush_empties_buffer_witness :
    writerFlush 25 storeAllOk oracleZero w60 =
      (⟨[], 3, [(List.range 60).take 25, ((List.range 60).drop 25).take 25,
                (List.range 60).drop 50]⟩, none) ∧
    (writerFlush 25 storeAllOk oracleZero w60).1.buffer = [] := by
  have he : writerFlush 25 storeAllOk oracleZero w60 =
      (⟨[], 3, [(List.range 60).take 25, ((List.range 60).drop 25).take 25,
                (List.range 60).drop 50]⟩, none) := by decide
  exact ⟨he, C4_flush_empties_buffer.1 25 storeAllOk oracleZero w60 _ (by decide) he⟩

/-- C7 (spec-modelled base flush): a throughput-exceeded failure on the second
chunk of a 60-item buffer is retried and the flush succeeds, sending the first
chunk exactly once (it is never re-sent after its acknowledgment); and in
general the pending buffer only ever shrinks from the front by confirmed
chunks, so any terminal failure leaves the buffer a suffix of the original with
no confirmed item re-added. -/
theorem C7_no_resend_confirmed_chunks :
    ((writerFlush 25 storeFailSecond oracleZero w60).2 = none ∧
     (writerFlush 25 storeFailSecond oracleZero w60).1.buffer = [] ∧
     (writerFlush 25 storeFailSecond oracleZero w60).1.sent.map List.length =
       [25, 25, 25, 10] ∧
     (writerFlush 25 storeFailSecond oracleZero w60).1.sent.count
       ((List.range 60).take 25) = 1) ∧
    (∀ (fa : Nat) (store : Nat → BatchResp) (oracle : Nat → Nat) (s : WriterState ι),
        ∃ k2, (writerFlush fa store oracle s).1.buffer = s.buffer.drop k2) := by
  exact ⟨by decide, fun fa store oracle s => writerFlush_drop fa store oracle s⟩

theorem C7_no_resend_witness :
    writerFlush 25 storeAllFail oracleZero ⟨List.range 3, 0, []⟩ =
      (⟨List.range 3, 1, [List.range 3]⟩, some validationError) ∧
    ∃ k2, (writerFlush 25 storeAllFail oracleZero ⟨List.range 3, 0, []⟩).1.buffer =
      (⟨List.range 3, 0, []⟩ : WriterState Nat).buffer.drop k2 :=
  ⟨by decide, C7_no_resend_confirmed_chunks.2 25 storeAllFail oracleZero ⟨List.range 3, 0, []⟩⟩

end Boto3Utils
